import Mathlib

/-!
Verification development for the x-analytics repository.

The Python source is shallowly embedded in Lean 4:
* clock times of day are modelled as seconds since midnight (`ℕ`, intended
  `< 86400`); `datetime.time` values compare exactly like their
  seconds-since-midnight projections when microseconds are ignored, and the
  definitions below never need sub-second resolution;
* weekdays are `ℕ` with `0 = Monday` (Python's `datetime.weekday()`);
* wall-clock instants (`time.time()` floats) are modelled as rationals `ℚ`;
* Python exceptions are modelled with `Except String`.
-/

namespace XAnalytics

/-- One market's entry of `Settings.TRADING_HOURS` (src/analytics/core/config.py).
The Python value is a heterogeneous dict; the fields present for each market are
the ones its branch of `is_trading_hours` reads.  Times are seconds since
midnight. -/
structure MarketConfig where
  morning : ℕ × ℕ
  afternoon : ℕ × ℕ
  session : ℕ × ℕ
  weekdays_only : Bool
  cross_midnight : Bool
deriving Repr, DecidableEq

/-- The table `Settings.TRADING_HOURS` from src/analytics/core/config.py.
`market_cn`: morning 09:30–11:30, afternoon 13:00–15:00, weekdays only.
`market_us`: session 21:30–04:00 Beijing time, weekdays only, crosses midnight.
`metals`: session 00:00–23:59, not weekdays-only.
Fields a market's dict does not carry are given the placeholder `(0, 0)`;
`is_trading_hours` never reads them for that market. -/
def TRADING_HOURS (market : String) : Option MarketConfig :=
  if market = "market_cn" then some
      { morning := (9 * 3600 + 30 * 60, 11 * 3600 + 30 * 60)
        afternoon := (13 * 3600, 15 * 3600)
        session := (0, 0)
        weekdays_only := true
        cross_midnight := false }
  else if market = "market_us" then some
      { morning := (0, 0)
        afternoon := (0, 0)
        session := (21 * 3600 + 30 * 60, 4 * 3600)
        weekdays_only := true
        cross_midnight := true }
  else if market = "metals" then some
      { morning := (0, 0)
        afternoon := (0, 0)
        session := (0, 23 * 3600 + 59 * 60)
        weekdays_only := false
        cross_midnight := false }
  else none

/-- Function `is_trading_hours` from src/analytics/core/utils.py.  The Python function
reads the current Beijing time; here the current weekday and the current time
of day (seconds since midnight) are explicit arguments. -/
def is_trading_hours (market : String) (weekday : ℕ) (tod : ℕ) : Bool :=
  match TRADING_HOURS market with
  | none => false
  | some config =>
    if config.weekdays_only && decide (5 ≤ weekday) then
      false
    else if market = "market_cn" then
      (decide (config.morning.1 ≤ tod) && decide (tod ≤ config.morning.2)) ||
        (decide (config.afternoon.1 ≤ tod) && decide (tod ≤ config.afternoon.2))
    else if config.cross_midnight then
      decide (config.session.1 ≤ tod) || decide (tod ≤ config.session.2)
    else
      decide (config.session.1 ≤ tod) && decide (tod ≤ config.session.2)

/-- Function `is_trading_time` from src/analytics/core/utils.py.  The current weekday,
the (external, memoized) trade-calendar verdict `is_trading_day(now.date())`,
and the current time of day are explicit arguments.  Tolerance arithmetic on
naive `datetime`s anchored to the current day is carried out in `ℤ` seconds,
which is exact because every compared instant is an offset from the same
midnight. -/
def is_trading_time (market : String) (weekday : ℕ) (isTradingDay : Bool)
    (tod : ℕ) (toleranceMinutes : ℕ) : Bool :=
  match TRADING_HOURS market with
  | none => false
  | some config =>
    -- "Metals trade 24h — always return True"
    if config.weekdays_only = false then true
    else if 5 ≤ weekday then false
    else if isTradingDay = false then false
    else
      let tol : ℤ := 60 * toleranceMinutes
      if market = "market_cn" then
        -- Simplified in the source: expanded morning-open to afternoon-close
        decide ((config.morning.1 : ℤ) - tol ≤ (tod : ℤ)) &&
          decide ((tod : ℤ) ≤ (config.afternoon.2 : ℤ) + tol)
      else if config.cross_midnight then
        decide ((config.session.1 : ℤ) - tol ≤ (tod : ℤ)) ||
          decide ((tod : ℤ) ≤ (config.session.2 : ℤ) + tol)
      else
        decide ((config.session.1 : ℤ) - tol ≤ (tod : ℤ)) &&
          decide ((tod : ℤ) ≤ (config.session.2 : ℤ) + tol)

/-- The specification's reading of the tolerance variant: the current instant
lies inside ONE OF the market's configured session windows, each expanded by
`toleranceMinutes` at both boundaries.  (Stated from the spec's words for
comparison with `is_trading_time`, which is translated from the source.) -/
def inExpandedSessionWindows (market : String) (tod : ℕ)
    (toleranceMinutes : ℕ) : Bool :=
  match TRADING_HOURS market with
  | none => false
  | some config =>
    let tol : ℤ := 60 * toleranceMinutes
    if market = "market_cn" then
      (decide ((config.morning.1 : ℤ) - tol ≤ (tod : ℤ)) &&
        decide ((tod : ℤ) ≤ (config.morning.2 : ℤ) + tol)) ||
      (decide ((config.afternoon.1 : ℤ) - tol ≤ (tod : ℤ)) &&
        decide ((tod : ℤ) ≤ (config.afternoon.2 : ℤ) + tol))
    else if config.cross_midnight then
      decide ((config.session.1 : ℤ) - tol ≤ (tod : ℤ)) ||
        decide ((tod : ℤ) ≤ (config.session.2 : ℤ) + tol)
    else
      decide ((config.session.1 : ℤ) - tol ≤ (tod : ℤ)) &&
        decide ((tod : ℤ) ≤ (config.session.2 : ℤ) + tol)

/-- A job registered with the background scheduler: its id and its interval
trigger in minutes.  External-collaborator model of `apscheduler`'s job
store, which keys jobs by id. -/
structure SchedJob where
  id : String
  intervalMinutes : ℕ
deriving Repr, DecidableEq

/-- The call `BackgroundScheduler.add_job(fn, IntervalTrigger(minutes=n), id=job_id,
replace_existing=True)` as called by both schedulers: with
`replace_existing=True`, an existing job with the same id is replaced in
place, otherwise the job is appended (external-collaborator semantics of the
apscheduler job store). -/
def aps_add_job (jobs : List SchedJob) (jobId : String)
    (intervalMinutes : ℕ) : List SchedJob :=
  if jobs.any (fun j => decide (j.id = jobId)) then
    jobs.map (fun j => if j.id = jobId then ⟨jobId, intervalMinutes⟩ else j)
  else
    jobs ++ [⟨jobId, intervalMinutes⟩]

/-- Shared state shape of `SmartScheduler` (src/analytics/core/scheduler.py)
and `CacheScheduler` (src/analytics/scheduler.py): the apscheduler job store
plus the internal `_jobs` id list. -/
structure SchedState where
  jobs : List SchedJob
  jobIds : List String
deriving Repr, DecidableEq

/-- Lookup `settings.REFRESH_INTERVALS["trading_hours"].get(market, 300)`. -/
def REFRESH_INTERVALS_trading (market : String) : ℕ :=
  if market = "market_cn" then 1800
  else if market = "market_us" then 1800
  else if market = "metals" then 1800
  else 300

/-- Lookup `settings.REFRESH_INTERVALS["non_trading_hours"].get(market, 1800)`. -/
def REFRESH_INTERVALS_non_trading (market : String) : ℕ :=
  if market = "market_cn" then 86400 * 365
  else if market = "market_us" then 86400 * 365
  else if market = "metals" then 3600
  else 1800

/-- Method `SmartScheduler.add_market_job` (src/analytics/core/scheduler.py): the
trigger interval is the minimum of the trading/non-trading cadences in whole
minutes, at least 1; the job is registered with `replace_existing=True` and
the id is appended to `self._jobs`. -/
def add_market_job (s : SchedState) (jobId : String) (market : String) :
    SchedState :=
  let min_interval :=
    min (REFRESH_INTERVALS_trading market) (REFRESH_INTERVALS_non_trading market)
  let interval_minutes := max 1 (min_interval / 60)
  { jobs := aps_add_job s.jobs jobId interval_minutes
    jobIds := s.jobIds ++ [jobId] }

/-- Method `CacheScheduler.add_warmup_job` (src/analytics/scheduler.py): registered
at the trading-interval cadence with `replace_existing=True`. -/
def add_warmup_job (s : SchedState) (jobId : String)
    (tradingIntervalMinutes : ℕ) : SchedState :=
  { jobs := aps_add_job s.jobs jobId tradingIntervalMinutes
    jobIds := s.jobIds ++ [jobId] }

/-- The curated transient-error keyword list of `akshare_call_with_retry`
(src/analytics/core/utils.py, `retryable_error_keywords`). -/
def retryable_error_keywords : List String :=
  ["connection", "timeout", "disconnected", "reset", "refused", "aborted",
   "remotedisconnected", "closed", "eof", "broken pipe", "network",
   "temporary failure", "object literal", "not terminated", "json", "decode",
   "expecting", "unterminated"]

/-- Python's `pat in s` substring test. -/
def containsSubstring (pat s : String) : Bool :=
  (List.range (s.length + 1)).any (fun i => pat.toList.isPrefixOf (s.toList.drop i))

/-- ASCII lower-casing of one character (`str.lower` acts per character). -/
def char_lower (c : Char) : Char :=
  if 'A' ≤ c ∧ c ≤ 'Z' then Char.ofNat (c.toNat + 32) else c

/-- Python's `str.lower()` (ASCII part, which covers every curated keyword). -/
def str_lower (s : String) : String :=
  String.mk (s.toList.map char_lower)

/-- The test `any(keyword in error_msg for keyword in retryable_error_keywords)` with
`error_msg = str(e).lower()` (src/analytics/core/utils.py). -/
def is_retryable_error (msg : String) : Bool :=
  retryable_error_keywords.any (fun k => containsSubstring k (str_lower msg))

/-- The retry loop of `akshare_call_with_retry` (src/analytics/core/utils.py).
The wrapped call is modelled as `f : ℕ → Except String α`, the outcome of
attempt `i` (0-based); exceptions are `Except.error` carrying `str(e)`
lower-cased.  Returns the final outcome together with the number of attempts
performed.  Backoff sleeps and the global throttler gate only affect timing
and are not modelled. -/
def retry_go (f : ℕ → Except String α) (maxRetries attempt : ℕ) :
    Except String α × ℕ :=
  match f attempt with
  | .ok v => (.ok v, attempt + 1)
  | .error e =>
    if is_retryable_error e = false then
      -- non-retryable: re-raised immediately
      (.error e, attempt + 1)
    else if attempt + 1 < maxRetries then
      retry_go f maxRetries (attempt + 1)
    else
      -- loop exhausted: `raise last_exception`
      (.error e, attempt + 1)
termination_by maxRetries - attempt
decreasing_by omega

/-- Entry point `akshare_call_with_retry(func, ..., max_retries=maxRetries)`. -/
def akshare_call_with_retry (f : ℕ → Except String α) (maxRetries : ℕ) :
    Except String α × ℕ :=
  retry_go f maxRetries 0

/-- The response envelope of cache-aware handlers: `{status, message?}`
(§6 of the design; payload-carrying responses are `ApiResult.value`). -/
structure Envelope where
  status : String
  message : Option String
deriving Repr, DecidableEq

/-- Modelled from the spec: `wrap_response` lives in the cache module, which
is absent from src/ (only imported by src/analytics/core/decorators.py); per
the spec's §6 response envelope it builds `{status: ..., message?: ...}`. -/
def wrap_response (status : String) (message : Option String) : Envelope :=
  ⟨status, message⟩

/-- What a wrapped route handler returns to the HTTP layer: either the
handler's own return value passed through, or an error envelope. -/
inductive ApiResult (β : Type) where
  | value (v : β)
  | envelope (e : Envelope)
deriving Repr, DecidableEq

/-- Decorator `safe_endpoint` from src/analytics/core/decorators.py: runs the wrapped
handler, passes a normal return through unchanged, and converts any raised
exception into `wrap_response(status="error", message=str(e))`. -/
def safe_endpoint (f : α → Except String β) (x : α) : ApiResult β :=
  match f x with
  | .ok v => .value v
  | .error e => .envelope (wrap_response "error" (some e))

namespace RateLimiter

/-- Mutable state of `RateLimiter` (src/analytics/core/rate_limiter.py):
`_requests` is a `defaultdict(list)` of request timestamps per client
(modelled as a total function defaulting to `[]`), `_last_cleanup` the last
cleanup instant.  `time.time()` floats are modelled as rationals. -/
structure State where
  requests : String → List ℚ
  lastCleanup : ℚ

/-- A fresh `RateLimiter(...)` constructed at instant `t0`. -/
def init (t0 : ℚ) : State :=
  ⟨fun _ => [], t0⟩

/-- Method `RateLimiter._cleanup(cutoff_time)`: drops timestamps `≤ cutoff` for every
client.  The source also deletes keys whose list became empty; in the
total-function model a deleted key and an empty list are the same state. -/
def cleanup (s : State) (cutoff : ℚ) : State :=
  { s with requests := fun c => (s.requests c).filter (fun ts => decide (cutoff < ts)) }

/-- Method `RateLimiter.is_allowed(client_id)` at instant `now`, for a limiter with
`requests_per_minute = limit` and the given `cleanup_interval`
(`window_size = 60`): runs the periodic cleanup when due, prunes the client's
timestamps to the trailing 60-second window (stored back via `requests[:]`),
rejects when the pruned count has reached the limit, otherwise records `now`
and accepts. -/
def is_allowed (limit : ℕ) (cleanupInterval : ℚ) (s : State) (client : String)
    (now : ℚ) : Bool × State :=
  let windowStart := now - 60
  let s1 := if cleanupInterval < now - s.lastCleanup then
      { cleanup s windowStart with lastCleanup := now }
    else s
  let reqs := (s1.requests client).filter (fun ts => decide (windowStart < ts))
  if limit ≤ reqs.length then
    (false, { s1 with requests := fun c => if c = client then reqs else s1.requests c })
  else
    (true, { s1 with requests := fun c => if c = client then reqs ++ [now] else s1.requests c })

/-- Method `RateLimiter.get_remaining(client_id)` at instant `now`
(`max(0, limit - len(valid))` is `ℕ` truncated subtraction). -/
def get_remaining (limit : ℕ) (s : State) (client : String) (now : ℚ) : ℕ :=
  limit - ((s.requests client).filter (fun ts => decide (now - 60 < ts))).length

/-- A sequence of `is_allowed` calls, each a `(client_id, instant)` pair;
returns the final limiter state. -/
def runAll (limit : ℕ) (cleanupInterval : ℚ) (s : State)
    (calls : List (String × ℚ)) : State :=
  calls.foldl (fun st c => (is_allowed limit cleanupInterval st c.1 c.2).2) s

/-- A sequence of `is_allowed` calls of a single client, collecting the
returned verdicts. -/
def runCalls (limit : ℕ) (cleanupInterval : ℚ) :
    State → String → List ℚ → List Bool × State
  | s, _, [] => ([], s)
  | s, client, t :: ts =>
    let r := is_allowed limit cleanupInterval s client t
    let rest := runCalls limit cleanupInterval r.2 client ts
    (r.1 :: rest.1, rest.2)

/-- Two timestamp lists agree above a cutoff: every trailing-window filter at
or beyond the cutoff sees the same list. -/
def agreeAbove (l₁ l₂ : List ℚ) (m : ℚ) : Prop :=
  ∀ c : ℚ, m ≤ c →
    l₁.filter (fun x => decide (c < x)) = l₂.filter (fun x => decide (c < x))

end RateLimiter

/-- Freshness tag returned by the cache core. -/
inductive Freshness where
  | fresh
  | stale
deriving Repr, DecidableEq

/-- A stored cache entry: payload plus `computed_at` timestamp. -/
structure CacheEntry (α : Type) where
  payload : α
  computed_at : ℚ
deriving Repr, DecidableEq

/-- The key-value store plus the per-key `WarmupLock` tokens. -/
structure CacheState (α : Type) where
  store : String → Option (CacheEntry α)
  lock : String → Bool

/-- What one `get_or_compute` call did: the returned payload and freshness
tag, how many synchronous invocations of `compute_fn` it made, and whether it
spawned a background recompute. -/
structure GocOutcome (α : Type) where
  payload : α
  freshness : Freshness
  computeCalls : ℕ
  recomputeSpawned : Bool

/-- Modelled from the spec: `get_or_compute(key, compute_fn, logical_ttl,
stale_ttl)` of the stale-while-revalidate cache core (spec §4.1); the cache
module itself is absent from src/ (only its callers and the decorator module
that imports it are present).  Case 1: entry absent → synchronous cold
compute, store with `computed_at = now`, return fresh (a raised exception
propagates, nothing cached).  Case 2: `now - computed_at < logical_ttl` →
cached payload, fresh, no compute.  Case 3: stale-but-alive → cached payload,
stale, and a background recompute is spawned iff the per-key WarmupLock is
acquired.  Case 4: older than the physical TTL → as case 1. -/
def get_or_compute (now : ℚ) (key : String)
    (compute_fn : Unit → Except String α) (logical_ttl physical_ttl : ℚ)
    (s : CacheState α) : Except String (GocOutcome α) × CacheState α :=
  match s.store key with
  | none =>
    match compute_fn () with
    | .error e => (.error e, s)
    | .ok v =>
      (.ok ⟨v, .fresh, 1, false⟩,
        { s with store := fun k => if k = key then some ⟨v, now⟩ else s.store k })
  | some entry =>
    if now - entry.computed_at < logical_ttl then
      (.ok ⟨entry.payload, .fresh, 0, false⟩, s)
    else if now - entry.computed_at < physical_ttl then
      if s.lock key then
        (.ok ⟨entry.payload, .stale, 0, false⟩, s)
      else
        (.ok ⟨entry.payload, .stale, 0, true⟩,
          { s with lock := fun k => if k = key then true else s.lock k })
    else
      match compute_fn () with
      | .error e => (.error e, s)
      | .ok v =>
        (.ok ⟨v, .fresh, 1, false⟩,
          { s with store := fun k => if k = key then some ⟨v, now⟩ else s.store k })

/-- C2: for a market configured with a midnight-crossing session (and not hit
by the weekday gate), `is_trading_hours` reports the current time inside the
session exactly when `session_start ≤ current ∨ current ≤ session_end`
(disjunction); concretely for the 21:30–04:00 session of `market_us`, 23:00,
00:30 and 03:59 are inside while 04:01 and 20:00 are outside. -/
theorem cross_midnight_session_rule (market : String) (config : MarketConfig)
    (weekday tod : ℕ)
    (hc : TRADING_HOURS market = some config) (hx : config.cross_midnight = true)
    (hcn : market ≠ "market_cn") (hw : weekday < 5) :
    is_trading_hours market weekday tod =
      (decide (config.session.1 ≤ tod) || decide (tod ≤ config.session.2)) ∧
    is_trading_hours "market_us" 2 (23 * 3600) = true ∧
    is_trading_hours "market_us" 2 (30 * 60) = true ∧
    is_trading_hours "market_us" 2 (3 * 3600 + 59 * 60) = true ∧
    is_trading_hours "market_us" 2 (4 * 3600 + 60) = false ∧
    is_trading_hours "market_us" 2 (20 * 3600) = false := by
  refine ⟨?_, by decide, by decide, by decide, by decide, by decide⟩
  have h5 : decide (5 ≤ weekday) = false := decide_eq_false (Nat.not_le.mpr hw)
  simp [is_trading_hours, hc, h5, hcn, hx]

/-- C2 witness: the general part of `cross_midnight_session_rule`
instantiated with the `market_us` configuration at 23:00 on a Wednesday. -/
theorem cross_midnight_session_rule_witness :
    is_trading_hours "market_us" 2 (23 * 3600) =
      (decide (21 * 3600 + 30 * 60 ≤ 23 * 3600) || decide (23 * 3600 ≤ 4 * 3600)) :=
  (cross_midnight_session_rule "market_us"
    { morning := (0, 0), afternoon := (0, 0),
      session := (21 * 3600 + 30 * 60, 4 * 3600),
      weekdays_only := true, cross_midnight := true }
    2 (23 * 3600) (by decide) (by decide) (by decide) (by decide)).1

/-- C4 counterexample: at 12:00 on a trading Wednesday with the default
tolerance of 15 minutes, `is_trading_time("market_cn")` returns true although
12:00 lies in none of the configured session windows expanded by 15 minutes
(morning 09:15–11:45, afternoon 12:45–15:15): the source collapses the two
sessions into one window spanning the lunch break. -/
theorem trading_time_lunch_break_counterexample :
    is_trading_time "market_cn" 2 true (12 * 3600) 15 = true ∧
    inExpandedSessionWindows "market_cn" (12 * 3600) 15 = false := by decide

/-- C4 (amended): with the weekend/holiday gate unchanged by the tolerance,
`is_trading_time` agrees with per-window boundary expansion for the
midnight-crossing market (`market_us`); for `market_cn` it instead tests one
window from morning open − t to afternoon close + t (lunch break included);
the 24-hour metals market is always inside; the weekday and trade-calendar
exclusions force false regardless of the tolerance. -/
theorem trading_time_tolerance_characterization :
    (∀ (weekday : ℕ) (isTD : Bool) (tod tol : ℕ), weekday < 5 → isTD = true →
      is_trading_time "market_us" weekday isTD tod tol =
        inExpandedSessionWindows "market_us" tod tol) ∧
    (∀ (weekday : ℕ) (isTD : Bool) (tod tol : ℕ), weekday < 5 → isTD = true →
      is_trading_time "market_cn" weekday isTD tod tol =
        (decide ((9 * 3600 + 30 * 60 : ℤ) - 60 * tol ≤ (tod : ℤ)) &&
          decide ((tod : ℤ) ≤ (15 * 3600 : ℤ) + 60 * tol))) ∧
    (∀ (weekday : ℕ) (isTD : Bool) (tod tol : ℕ),
      is_trading_time "metals" weekday isTD tod tol = true) ∧
    (∀ (market : String) (config : MarketConfig) (weekday : ℕ) (isTD : Bool)
        (tod tol : ℕ), TRADING_HOURS market = some config →
      config.weekdays_only = true →
      (5 ≤ weekday → is_trading_time market weekday isTD tod tol = false) ∧
      (isTD = false → is_trading_time market weekday isTD tod tol = false)) := by
  refine ⟨?_, ?_, ?_, ?_⟩
  · intro weekday isTD tod tol hw hTD
    have h5 : ¬ (5 ≤ weekday) := Nat.not_le.mpr hw
    simp [is_trading_time, inExpandedSessionWindows, TRADING_HOURS, h5, hTD]
  · intro weekday isTD tod tol hw hTD
    have h5 : ¬ (5 ≤ weekday) := Nat.not_le.mpr hw
    simp [is_trading_time, TRADING_HOURS, h5, hTD]
  · intro weekday isTD tod tol
    simp [is_trading_time, TRADING_HOURS]
  · intro market config weekday isTD tod tol hc hwo
    constructor
    · intro h5
      simp [is_trading_time, hc, hwo, h5]
    · intro hTD
      subst hTD
      by_cases h5 : 5 ≤ weekday <;> simp [is_trading_time, hc, hwo, h5]

/-- C4 witness: the amended characterization instantiated at concrete inputs —
`market_us` at 21:20 (inside the expanded window) on a trading Wednesday with
tolerance 15, and the weekday gate for `market_cn` on a Saturday. -/
theorem trading_time_tolerance_characterization_witness :
    (is_trading_time "market_us" 2 true (21 * 3600 + 20 * 60) 15 =
      inExpandedSessionWindows "market_us" (21 * 3600 + 20 * 60) 15) ∧
    is_trading_time "market_cn" 5 true (10 * 3600) 15 = false :=
  ⟨trading_time_tolerance_characterization.1 2 true (21 * 3600 + 20 * 60) 15
      (by decide) rfl,
    (trading_time_tolerance_characterization.2.2.2 "market_cn"
      { morning := (9 * 3600 + 30 * 60, 11 * 3600 + 30 * 60),
        afternoon := (13 * 3600, 15 * 3600), session := (0, 0),
        weekdays_only := true, cross_midnight := false }
      5 true (10 * 3600) 15 (by decide) rfl).1 (by decide)⟩

/-- C5: the metals market is configured with session 00:00–23:59, so
`is_trading_hours("metals")` is false for times strictly inside the final
minute of the day (e.g. 23:59:30) on any day — contradicting the documented
24-hour behaviour, which `is_trading_time` implements (always true). -/
theorem metals_last_minute_gap :
    is_trading_hours "metals" 2 (23 * 3600 + 59 * 60 + 30) = false ∧
    is_trading_hours "metals" 6 (23 * 3600 + 59 * 60 + 30) = false ∧
    is_trading_time "metals" 6 false (23 * 3600 + 59 * 60 + 30) 0 = true ∧
    is_trading_hours "metals" 2 0 = true ∧
    is_trading_hours "metals" 6 (23 * 3600 + 59 * 60) = true := by decide

theorem aps_add_job_countP (jobs : List SchedJob) (jobId : String) (n : ℕ)
    (h : jobs.countP (fun j => decide (j.id = jobId)) ≤ 1) :
    (aps_add_job jobs jobId n).countP (fun j => decide (j.id = jobId)) = 1 := by
  unfold aps_add_job
  by_cases hany : jobs.any (fun j => decide (j.id = jobId)) = true
  · rw [if_pos hany]
    have hpos : 0 < jobs.countP (fun j => decide (j.id = jobId)) := by
      rw [List.countP_pos_iff]
      obtain ⟨a, ha, hp⟩ := List.any_eq_true.mp hany
      exact ⟨a, ha, hp⟩
    have hfun : ((fun j => decide (j.id = jobId)) ∘
        (fun j => if j.id = jobId then (⟨jobId, n⟩ : SchedJob) else j)) =
        (fun j => decide (j.id = jobId)) := by
      funext j
      by_cases hj : j.id = jobId <;> simp [hj]
    rw [List.countP_map, hfun]
    omega
  · rw [if_neg hany]
    have h0 : jobs.countP (fun j => decide (j.id = jobId)) = 0 := by
      rw [List.countP_eq_zero]
      intro a ha
      intro hp
      exact hany (List.any_eq_true.mpr ⟨a, ha, hp⟩)
    rw [List.countP_append, h0]
    simp

/-- C6: registering a warmup job twice with the same `job_id` (via
`add_market_job` or `add_warmup_job`, both of which pass
`replace_existing=True`) leaves exactly one active trigger with that id in
the scheduler's job store, provided the store held at most one beforehand
(the apscheduler store never holds duplicate ids). -/
theorem register_same_job_id_idempotent (s : SchedState)
    (jobId m₁ m₂ : String) (t₁ t₂ : ℕ)
    (h : s.jobs.countP (fun j => decide (j.id = jobId)) ≤ 1) :
    ((add_market_job (add_market_job s jobId m₁) jobId m₂).jobs.countP
      (fun j => decide (j.id = jobId))) = 1 ∧
    ((add_warmup_job (add_warmup_job s jobId t₁) jobId t₂).jobs.countP
      (fun j => decide (j.id = jobId))) = 1 := by
  constructor
  · simp only [add_market_job]
    exact aps_add_job_countP _ jobId _ (le_of_eq (aps_add_job_countP _ jobId _ h))
  · simp only [add_warmup_job]
    exact aps_add_job_countP _ jobId _ (le_of_eq (aps_add_job_countP _ jobId _ h))

/-- C6 witness: two registrations of `warmup:market:overview` on the empty
scheduler leave exactly one trigger with that id. -/
theorem register_same_job_id_idempotent_witness :
    ((add_market_job (add_market_job ⟨[], []⟩ "warmup:market:overview" "market_cn")
        "warmup:market:overview" "market_us").jobs.countP
      (fun j => decide (j.id = "warmup:market:overview"))) = 1 :=
  (register_same_job_id_idempotent ⟨[], []⟩ "warmup:market:overview"
    "market_cn" "market_us" 5 30 (by simp)).1

theorem retry_go_of_ok (α : Type) (f : ℕ → Except String α)
    (maxRetries attempt : ℕ) (v : α) (hf : f attempt = Except.ok v) :
    retry_go f maxRetries attempt = (Except.ok v, attempt + 1) := by
  rw [retry_go, hf]

theorem retry_go_of_error (α : Type) (f : ℕ → Except String α)
    (maxRetries attempt : ℕ) (e : String) (hf : f attempt = Except.error e) :
    retry_go f maxRetries attempt =
      if is_retryable_error e = false then (Except.error e, attempt + 1)
      else if attempt + 1 < maxRetries then retry_go f maxRetries (attempt + 1)
      else (Except.error e, attempt + 1) := by
  rw [retry_go, hf]

theorem retry_go_attempts_le (α : Type) (f : ℕ → Except String α)
    (maxRetries : ℕ) :
    ∀ (d attempt : ℕ), maxRetries - attempt ≤ d → attempt < maxRetries →
      (retry_go f maxRetries attempt).2 ≤ maxRetries := by
  intro d
  induction d with
  | zero =>
    intro attempt h1 h2
    omega
  | succ n ih =>
    intro attempt h1 h2
    cases hf : f attempt with
    | ok v =>
      rw [retry_go_of_ok α f maxRetries attempt v hf]
      simpa using h2
    | error e =>
      rw [retry_go_of_error α f maxRetries attempt e hf]
      by_cases hr : is_retryable_error e = false
      · rw [if_pos hr]
        simpa using h2
      · rw [if_neg hr]
        by_cases hlt : attempt + 1 < maxRetries
        · rw [if_pos hlt]
          exact ih (attempt + 1) (by omega) hlt
        · rw [if_neg hlt]
          simpa using h2

theorem retry_go_attempts_exhaust (α : Type) (f : ℕ → Except String α)
    (maxRetries : ℕ)
    (hall : ∀ i, i < maxRetries →
      ∃ e, f i = Except.error e ∧ is_retryable_error e = true) :
    ∀ (d attempt : ℕ), maxRetries - attempt ≤ d → attempt < maxRetries →
      (retry_go f maxRetries attempt).2 = maxRetries := by
  intro d
  induction d with
  | zero =>
    intro attempt h1 h2
    omega
  | succ n ih =>
    intro attempt h1 h2
    obtain ⟨e, hf, hr⟩ := hall attempt h2
    rw [retry_go_of_error α f maxRetries attempt e hf]
    rw [if_neg (by simp [hr])]
    by_cases hlt : attempt + 1 < maxRetries
    · rw [if_pos hlt]
      exact ih (attempt + 1) (by omega) hlt
    · rw [if_neg hlt]
      simp
      omega

/-- C7: if the first attempt of the wrapped call raises an exception whose
message matches none of the curated transient keywords,
`akshare_call_with_retry` re-raises it after exactly one attempt; the attempt
count never exceeds `max_retries`, and when every attempt raises a
keyword-matching (transient) error the full budget of `max_retries` attempts
is used. -/
theorem akshare_retry_policy :
    (∀ (α : Type) (f : ℕ → Except String α) (e : String) (maxRetries : ℕ),
      f 0 = Except.error e → is_retryable_error e = false →
      akshare_call_with_retry f maxRetries = (Except.error e, 1)) ∧
    (∀ (α : Type) (f : ℕ → Except String α) (maxRetries : ℕ),
      1 ≤ maxRetries → (akshare_call_with_retry f maxRetries).2 ≤ maxRetries) ∧
    (∀ (α : Type) (f : ℕ → Except String α) (maxRetries : ℕ),
      1 ≤ maxRetries →
      (∀ i, i < maxRetries →
        ∃ e, f i = Except.error e ∧ is_retryable_error e = true) →
      (akshare_call_with_retry f maxRetries).2 = maxRetries) := by
  refine ⟨?_, ?_, ?_⟩
  · intro α f e maxRetries hf hr
    unfold akshare_call_with_retry
    rw [retry_go_of_error α f maxRetries 0 e hf, if_pos hr]
  · intro α f maxRetries h
    exact retry_go_attempts_le α f maxRetries maxRetries 0 (by omega) (by omega)
  · intro α f maxRetries h hall
    exact retry_go_attempts_exhaust α f maxRetries hall maxRetries 0
      (by omega) (by omega)

/-- C7 witness: a `ValueError`-style message matching no transient keyword is
re-raised after a single attempt even with `max_retries = 5`. -/
theorem akshare_retry_policy_witness :
    akshare_call_with_retry (fun _ => (Except.error "boom" : Except String ℕ)) 5 =
      (Except.error "boom", 1) :=
  akshare_retry_policy.1 ℕ (fun _ => Except.error "boom") "boom" 5 rfl (by decide)

/-- C8: `safe_endpoint` never propagates an exception: a normal return of the
wrapped handler is passed through unchanged, and any raised exception is
converted to the `{status: "error", message: str(e)}` envelope; every call
lands in exactly one of those two cases. -/
theorem safe_endpoint_total (α β : Type) (f : α → Except String β) (x : α) :
    (∀ v, f x = Except.ok v → safe_endpoint f x = ApiResult.value v) ∧
    (∀ e, f x = Except.error e →
      safe_endpoint f x = ApiResult.envelope (wrap_response "error" (some e))) ∧
    ((∃ v, safe_endpoint f x = ApiResult.value v ∧ f x = Except.ok v) ∨
      (∃ e, safe_endpoint f x = ApiResult.envelope ⟨"error", some e⟩ ∧
        f x = Except.error e)) := by
  refine ⟨?_, ?_, ?_⟩
  · intro v hv
    simp [safe_endpoint, hv]
  · intro e he
    simp [safe_endpoint, he]
  · cases hf : f x with
    | ok v => exact Or.inl ⟨v, by simp [safe_endpoint, hf], rfl⟩
    | error e =>
      exact Or.inr ⟨e, by simp [safe_endpoint, hf, wrap_response], rfl⟩

/-- C8 witness: a handler raising "boom" yields the error envelope with the
exception's message, through `safe_endpoint`. -/
theorem safe_endpoint_total_witness :
    safe_endpoint (fun _ : ℕ => (Except.error "boom" : Except String ℕ)) 0 =
      ApiResult.envelope (wrap_response "error" (some "boom")) :=
  (safe_endpoint_total ℕ ℕ (fun _ => Except.error "boom") 0).2.1 "boom" rfl

/-- C1: if the entry for `key` is present and `now - computed_at <
logical_ttl`, `get_or_compute` returns the cached payload tagged "fresh",
invokes `compute_fn` zero times, spawns no recompute, and leaves the cache
state unchanged. -/
theorem get_or_compute_fresh_hit (α : Type) (now : ℚ) (key : String)
    (compute_fn : Unit → Except String α) (logical_ttl physical_ttl : ℚ)
    (s : CacheState α) (entry : CacheEntry α)
    (hs : s.store key = some entry)
    (hfresh : now - entry.computed_at < logical_ttl) :
    get_or_compute now key compute_fn logical_ttl physical_ttl s =
      (.ok ⟨entry.payload, .fresh, 0, false⟩, s) := by
  simp [get_or_compute, hs, hfresh]

/-- C1 witness: a fresh cache hit at `now = 100` with `logical_ttl = 300`
returns the cached payload 42 without calling the (failing) compute
function. -/
theorem get_or_compute_fresh_hit_witness :
    get_or_compute (100 : ℚ) "xanalytics:market"
        (fun _ => (Except.error "upstream down" : Except String ℕ)) 300 7200
        ⟨fun k => if k = "xanalytics:market" then some ⟨42, 0⟩ else none,
          fun _ => false⟩ =
      (.ok ⟨42, .fresh, 0, false⟩,
        ⟨fun k => if k = "xanalytics:market" then some ⟨42, 0⟩ else none,
          fun _ => false⟩) :=
  get_or_compute_fresh_hit ℕ 100 "xanalytics:market"
    (fun _ => Except.error "upstream down") 300 7200 _ ⟨42, 0⟩
    (by simp) (by norm_num)

namespace RateLimiter

theorem filter_window_id (l : List ℚ) (c : ℚ) (h : ∀ x ∈ l, c < x) :
    l.filter (fun x => decide (c < x)) = l :=
  List.filter_eq_self.mpr fun x hx => decide_eq_true (h x hx)

theorem is_allowed_step (limit : ℕ) (ci : ℚ) (s : State) (client : String)
    (t a : ℚ) (ht : t < a + 60) (hs : ∀ x ∈ s.requests client, a ≤ x) :
    (is_allowed limit ci s client t).1 =
      decide ((s.requests client).length < limit) ∧
    ((is_allowed limit ci s client t).2).requests client =
      (if (s.requests client).length < limit then s.requests client ++ [t]
        else s.requests client) := by
  have hwin : ∀ x ∈ s.requests client, t - 60 < x := fun x hx =>
    lt_of_lt_of_le (by linarith) (hs x hx)
  have hfa : (s.requests client).filter (fun x => decide (t - 60 < x)) =
      s.requests client := filter_window_id _ _ hwin
  unfold is_allowed cleanup
  by_cases hcl : ci < t - s.lastCleanup
  · simp only [if_pos hcl, hfa]
    by_cases hlim : limit ≤ (s.requests client).length
    · have : ¬((s.requests client).length < limit) := by omega
      simp [hlim, hfa, this]
    · have : (s.requests client).length < limit := by omega
      simp [hlim, hfa, this]
  · simp only [if_neg hcl, hfa]
    by_cases hlim : limit ≤ (s.requests client).length
    · have : ¬((s.requests client).length < limit) := by omega
      simp [hlim, hfa, this]
    · have : (s.requests client).length < limit := by omega
      simp [hlim, hfa, this]

theorem runCalls_results (limit : ℕ) (ci : ℚ) (client : String) (a : ℚ) :
    ∀ (ts : List ℚ) (s : State),
      (∀ t ∈ ts, a ≤ t ∧ t < a + 60) →
      (∀ x ∈ s.requests client, a ≤ x ∧ x < a + 60) →
      (runCalls limit ci s client ts).1 =
        (List.range ts.length).map
          (fun i => decide ((s.requests client).length + i < limit)) := by
  intro ts
  induction ts with
  | nil =>
    intro s hts hs
    simp [runCalls]
  | cons t ts ih =>
    intro s hts hs
    have hbound := hts t (List.mem_cons_self t ts)
    have hstep := is_allowed_step limit ci s client t a hbound.2
      (fun x hx => (hs x hx).1)
    have hs' : ∀ x ∈ (is_allowed limit ci s client t).2.requests client,
        a ≤ x ∧ x < a + 60 := by
      rw [hstep.2]
      by_cases hk : (s.requests client).length < limit
      · rw [if_pos hk]
        intro x hx
        rcases List.mem_append.mp hx with h | h
        · exact hs x h
        · rw [List.mem_singleton.mp h]
          exact hbound
      · rw [if_neg hk]
        exact hs
    have htail := ih (is_allowed limit ci s client t).2
      (fun u hu => hts u (List.mem_cons_of_mem _ hu)) hs'
    simp only [runCalls, List.length_cons]
    rw [List.range_succ_eq_map, List.map_cons, List.map_map]
    refine List.cons_eq_cons.mpr ⟨?_, ?_⟩
    · rw [hstep.1]
      simp
    · rw [htail]
      apply List.map_congr_left
      intro i hi
      have hlen : ((is_allowed limit ci s client t).2.requests client).length =
          if (s.requests client).length < limit then
            (s.requests client).length + 1
          else (s.requests client).length := by
        rw [hstep.2]
        by_cases hk : (s.requests client).length < limit
        · simp [hk]
        · simp [hk]
      rw [hlen]
      by_cases hk : (s.requests client).length < limit
      · rw [if_pos hk]
        simp only [Function.comp]
        exact decide_eq_decide.mpr (by omega)
      · rw [if_neg hk]
        simp only [Function.comp]
        exact decide_eq_decide.mpr (by omega)

theorem is_allowed_cases (limit : ℕ) (ci : ℚ) (s : State) (client : String)
    (now : ℚ) :
    ∃ s1 : State,
      (s1 = s ∨ s1 = { cleanup s (now - 60) with lastCleanup := now }) ∧
      (∀ c, c ≠ client →
        ((is_allowed limit ci s client now).2).requests c = s1.requests c) ∧
      ((is_allowed limit ci s client now).2).requests client =
        (if limit ≤
            ((s1.requests client).filter (fun ts => decide (now - 60 < ts))).length
          then (s1.requests client).filter (fun ts => decide (now - 60 < ts))
          else (s1.requests client).filter (fun ts => decide (now - 60 < ts)) ++ [now]) ∧
      (is_allowed limit ci s client now).1 =
        decide
          (((s1.requests client).filter (fun ts => decide (now - 60 < ts))).length <
            limit) := by
  unfold is_allowed
  by_cases hcl : ci < now - s.lastCleanup
  · refine ⟨{ cleanup s (now - 60) with lastCleanup := now }, Or.inr rfl,
      ?_, ?_, ?_⟩
    · intro c hc
      simp only [if_pos hcl]
      split <;> simp [hc]
    · simp only [if_pos hcl]
      split
      next h => simp [if_pos h]
      next h => simp [if_neg h]
    · simp only [if_pos hcl]
      split
      next h => exact (decide_eq_false_iff_not.mpr (by omega)).symm
      next h => exact (decide_eq_true (by omega)).symm
  · refine ⟨s, Or.inl rfl, ?_, ?_, ?_⟩
    · intro c hc
      simp only [if_neg hcl]
      split <;> simp [hc]
    · simp only [if_neg hcl]
      split
      next h => simp [if_pos h]
      next h => simp [if_neg h]
    · simp only [if_neg hcl]
      split
      next h => exact (decide_eq_false_iff_not.mpr (by omega)).symm
      next h => exact (decide_eq_true (by omega)).symm

theorem runAll_length_le (limit : ℕ) (ci : ℚ) :
    ∀ (calls : List (String × ℚ)) (s : State),
      (∀ c, (s.requests c).length ≤ limit) →
      ∀ c, ((runAll limit ci s calls).requests c).length ≤ limit := by
  intro calls
  induction calls with
  | nil =>
    intro s h c
    simpa [runAll] using h c
  | cons p ps ih =>
    intro s h c
    rw [show runAll limit ci s (p :: ps) =
        runAll limit ci ((is_allowed limit ci s p.1 p.2).2) ps from rfl]
    refine ih ((is_allowed limit ci s p.1 p.2).2) ?_ c
    intro c'
    obtain ⟨s1, hs1, hothers, hclient, hfst⟩ := is_allowed_cases limit ci s p.1 p.2
    have hs1len : ∀ c'', (s1.requests c'').length ≤ limit := by
      rcases hs1 with rfl | rfl
      · exact h
      · intro c''
        simp only [cleanup]
        exact le_trans (List.length_filter_le _ _) (h c'')
    by_cases hc : c' = p.1
    · subst hc
      rw [hclient]
      split
      next hlim => exact le_trans (List.length_filter_le _ _) (hs1len _)
      next hlim =>
        rw [List.length_append]
        have h3 := List.length_filter_le (fun ts => decide (p.2 - 60 < ts))
          (s1.requests p.1)
        simp only [List.length_cons, List.length_nil]
        omega
    · rw [hothers c' hc]
      exact hs1len c'

theorem filter_gt_filter_gt (l : List ℚ) (c' c : ℚ) (h : c' ≤ c) :
    (l.filter (fun x => decide (c' < x))).filter (fun x => decide (c < x)) =
      l.filter (fun x => decide (c < x)) := by
  induction l with
  | nil => simp
  | cons x xs ih =>
    by_cases h1 : c' < x
    · by_cases h2 : c < x <;> simp [List.filter_cons, h1, h2, ih]
    · have h2 : ¬(c < x) := fun hc => h1 (lt_of_le_of_lt h hc)
      simp [List.filter_cons, h1, h2, ih]

theorem agreeAbove_mono (l₁ l₂ : List ℚ) (m m' : ℚ) (h : agreeAbove l₁ l₂ m)
    (hm : m ≤ m') : agreeAbove l₁ l₂ m' :=
  fun c hc => h c (le_trans hm hc)

theorem is_allowed_fst_eq (limit : ℕ) (ci : ℚ) (s : State) (client : String)
    (now : ℚ) :
    (is_allowed limit ci s client now).1 =
      decide
        (((s.requests client).filter (fun ts => decide (now - 60 < ts))).length <
          limit) := by
  obtain ⟨s1, hs1, _, _, hfst⟩ := is_allowed_cases limit ci s client now
  rw [hfst]
  rcases hs1 with rfl | rfl
  · rfl
  · simp only [cleanup]
    exact decide_eq_decide.mpr (by rw [filter_gt_filter_gt _ _ _ le_rfl])

theorem is_allowed_requests_a_eq (limit : ℕ) (ci : ℚ) (s : State)
    (client : String) (now : ℚ) :
    ((is_allowed limit ci s client now).2).requests client =
      (if limit ≤
          ((s.requests client).filter (fun ts => decide (now - 60 < ts))).length
        then (s.requests client).filter (fun ts => decide (now - 60 < ts))
        else (s.requests client).filter (fun ts => decide (now - 60 < ts)) ++ [now]) := by
  obtain ⟨s1, hs1, _, hclient, _⟩ := is_allowed_cases limit ci s client now
  rw [hclient]
  rcases hs1 with rfl | rfl
  · rfl
  · simp only [cleanup]
    rw [filter_gt_filter_gt _ _ _ le_rfl]

theorem is_allowed_requests_other (limit : ℕ) (ci : ℚ) (s : State)
    (client c : String) (now : ℚ) (hc : c ≠ client) :
    ((is_allowed limit ci s client now).2).requests c = s.requests c ∨
    ((is_allowed limit ci s client now).2).requests c =
      (s.requests c).filter (fun ts => decide (now - 60 < ts)) := by
  obtain ⟨s1, hs1, hothers, _, _⟩ := is_allowed_cases limit ci s client now
  rw [hothers c hc]
  rcases hs1 with rfl | rfl
  · exact Or.inl rfl
  · exact Or.inr rfl

/-- For chains of nondecreasing call instants, the full run and the run of
only client `a`'s calls leave timestamp lists for `a` that agree on every
trailing window anchored at or after the last instant. -/
theorem runAll_project (limit : ℕ) (ci : ℚ) (a : String) :
    ∀ (calls : List (String × ℚ)) (s p : State) (m : ℚ),
      agreeAbove (s.requests a) (p.requests a) (m - 60) →
      List.Chain (fun x y : ℚ => x ≤ y) m (calls.map Prod.snd) →
      ∀ T, m ≤ T → (∀ q ∈ calls, q.2 ≤ T) →
      agreeAbove ((runAll limit ci s calls).requests a)
        ((runAll limit ci p (calls.filter (fun q => decide (q.1 = a)))).requests a)
        (T - 60) := by
  intro calls
  induction calls with
  | nil =>
    intro s p m hagree hchain T hmT hbound
    simpa [runAll] using agreeAbove_mono _ _ _ _ hagree (by linarith)
  | cons q qs ih =>
    intro s p m hagree hchain T hmT hbound
    obtain ⟨cl, u⟩ := q
    simp only [List.map_cons, List.chain_cons] at hchain
    obtain ⟨hmu, hchain'⟩ := hchain
    have hqs_bound : ∀ q' ∈ qs, q'.2 ≤ T := fun q' hq' =>
      hbound q' (List.mem_cons_of_mem _ hq')
    have huT : u ≤ T := hbound (cl, u) (List.mem_cons_self _ _)
    by_cases hcl : cl = a
    · subst hcl
      have hfilter_cons :
          ((cl, u) :: qs).filter (fun q' => decide (q'.1 = cl)) =
            (cl, u) :: qs.filter (fun q' => decide (q'.1 = cl)) := by
        simp [List.filter_cons]
      rw [hfilter_cons]
      have hstep : runAll limit ci s ((cl, u) :: qs) =
          runAll limit ci ((is_allowed limit ci s cl u).2) qs := rfl
      have hstep' : runAll limit ci p
            ((cl, u) :: qs.filter (fun q' => decide (q'.1 = cl))) =
          runAll limit ci ((is_allowed limit ci p cl u).2)
            (qs.filter (fun q' => decide (q'.1 = cl))) := rfl
      rw [hstep, hstep']
      have hFP : (s.requests cl).filter (fun ts => decide (u - 60 < ts)) =
          (p.requests cl).filter (fun ts => decide (u - 60 < ts)) :=
        hagree (u - 60) (by linarith)
      have hlists : ((is_allowed limit ci s cl u).2).requests cl =
          ((is_allowed limit ci p cl u).2).requests cl := by
        rw [is_allowed_requests_a_eq, is_allowed_requests_a_eq, hFP]
      exact ih ((is_allowed limit ci s cl u).2) ((is_allowed limit ci p cl u).2)
        u (fun c hc => by rw [hlists]) hchain' T huT hqs_bound
    · have hfilter_cons :
          ((cl, u) :: qs).filter (fun q' => decide (q'.1 = a)) =
            qs.filter (fun q' => decide (q'.1 = a)) := by
        simp [List.filter_cons, hcl]
      rw [hfilter_cons]
      have hstep : runAll limit ci s ((cl, u) :: qs) =
          runAll limit ci ((is_allowed limit ci s cl u).2) qs := rfl
      rw [hstep]
      have hane : a ≠ cl := fun h => hcl h.symm
      have hagree' : agreeAbove (((is_allowed limit ci s cl u).2).requests a)
          (p.requests a) (u - 60) := by
        intro c hc
        rcases is_allowed_requests_other limit ci s cl a u hane with h | h
        · rw [h]
          exact hagree c (by linarith)
        · rw [h, filter_gt_filter_gt _ _ _ hc]
          exact hagree c (by linarith)
      exact ih ((is_allowed limit ci s cl u).2) p u hagree' hchain' T huT
        hqs_bound

theorem filter_eq_a_through_ne_b (r : List (String × ℚ)) (a b : String)
    (hab : a ≠ b) :
    r.filter (fun q => decide (q.1 = a)) =
      (r.filter (fun q => decide (¬ q.1 = b))).filter (fun q => decide (q.1 = a)) := by
  induction r with
  | nil => simp
  | cons q qs ih =>
    simp only [List.filter_cons]
    by_cases hq : q.1 = a
    · have hqb : ¬ q.1 = b := by rw [hq]; exact hab
      rw [if_pos (decide_eq_true hq), if_pos (decide_eq_true hqb)]
      simp only [List.filter_cons]
      rw [if_pos (decide_eq_true hq), ih]
    · rw [if_neg (by simp [hq])]
      by_cases hqb : q.1 = b
      · rw [if_neg (by simp [hqb]), ih]
      · rw [if_pos (decide_eq_true hqb)]
        simp only [List.filter_cons]
        rw [if_neg (by simp [hq])]
        exact ih

end RateLimiter

/-- C3: a limiter configured with `requests_per_minute = N` admits exactly
the first `N` of `N + 1` calls made by one client inside a common 60-second
window (all instants in `[a, a + 60)`): the first `N` return true, the
`(N+1)`-th returns false. -/
theorem rate_limiter_boundary (N : ℕ) (t0 a : ℚ) (client : String)
    (ts : List ℚ) (hlen : ts.length = N + 1)
    (hwin : ∀ t ∈ ts, a ≤ t ∧ t < a + 60) :
    (RateLimiter.runCalls N 60 (RateLimiter.init t0) client ts).1 =
      List.replicate N true ++ [false] := by
  rw [RateLimiter.runCalls_results N 60 client a ts (RateLimiter.init t0) hwin
    (by simp [RateLimiter.init])]
  simp only [RateLimiter.init, List.length_nil, Nat.zero_add, hlen]
  rw [show N + 1 = Nat.succ N from rfl, List.range_succ, List.map_append]
  refine congrArg₂ _ ?_ ?_
  · refine List.eq_replicate_iff.mpr ⟨by simp, ?_⟩
    intro b hb
    obtain ⟨i, hi, rfl⟩ := List.mem_map.mp hb
    exact decide_eq_true (List.mem_range.mp hi)
  · simp

/-- C3 witness: with `requests_per_minute = 1`, two immediate calls by one
client yield true then false. -/
theorem rate_limiter_boundary_witness :
    (RateLimiter.runCalls 1 60 (RateLimiter.init 0) "10.0.0.1" [0, 0]).1 =
      [true, false] := by
  have h := rate_limiter_boundary 1 0 0 "10.0.0.1" [0, 0] rfl
    (by
      intro t ht
      rcases List.mem_pair.mp ht with rfl | rfl <;> norm_num)
  simpa using h

/-- C9: from a fresh limiter, after any sequence of `is_allowed` calls every
client's stored timestamp list has length at most `requests_per_minute`; and
a rejected call stores no new timestamp for the client (the stored list is a
sublist of what was there before). -/
theorem rate_limiter_state_bounded :
    (∀ (limit : ℕ) (ci t0 : ℚ) (calls : List (String × ℚ)) (c : String),
      ((RateLimiter.runAll limit ci (RateLimiter.init t0) calls).requests c).length ≤
        limit) ∧
    (∀ (limit : ℕ) (ci : ℚ) (s : RateLimiter.State) (client : String) (now : ℚ),
      (RateLimiter.is_allowed limit ci s client now).1 = false →
      ((RateLimiter.is_allowed limit ci s client now).2.requests client).Sublist
        (s.requests client)) := by
  constructor
  · intro limit ci t0 calls c
    exact RateLimiter.runAll_length_le limit ci calls (RateLimiter.init t0)
      (by simp [RateLimiter.init]) c
  · intro limit ci s client now hfalse
    obtain ⟨s1, hs1, _, hclient, hfst⟩ :=
      RateLimiter.is_allowed_cases limit ci s client now
    rw [hfst] at hfalse
    have hlim : limit ≤
        ((s1.requests client).filter (fun ts => decide (now - 60 < ts))).length := by
      have := decide_eq_false_iff_not.mp hfalse
      omega
    rw [hclient, if_pos hlim]
    rcases hs1 with rfl | rfl
    · exact List.filter_sublist _
    · simp only [RateLimiter.cleanup]
      exact (List.filter_sublist _).trans (List.filter_sublist _)

/-- C9 witness: with `requests_per_minute = 0` a first call is rejected and
records nothing. -/
theorem rate_limiter_state_bounded_witness :
    ((RateLimiter.is_allowed 0 60 (RateLimiter.init 0) "10.0.0.1" 0).2.requests
      "10.0.0.1").Sublist ((RateLimiter.init 0).requests "10.0.0.1") :=
  rate_limiter_state_bounded.2 0 60 (RateLimiter.init 0) "10.0.0.1" 0
    (by
      have h := RateLimiter.is_allowed_step 0 60 (RateLimiter.init 0)
        "10.0.0.1" 0 0 (by norm_num) (by simp [RateLimiter.init])
      simpa using h.1)

/-- C10: for distinct clients `a ≠ b`, two runs with nondecreasing call
instants that agree on every call of clients other than `b` produce the same
`is_allowed(a)` verdict and the same `get_remaining(a)` at any instant `t`
not earlier than the runs' calls: one client's request history never affects
another client's admission decision. -/
theorem rate_limiter_noninterference (limit : ℕ) (a b : String)
    (t0 m t : ℚ) (r₁ r₂ : List (String × ℚ)) (hab : a ≠ b)
    (hchain₁ : List.Chain (fun x y : ℚ => x ≤ y) m (r₁.map Prod.snd))
    (hchain₂ : List.Chain (fun x y : ℚ => x ≤ y) m (r₂.map Prod.snd))
    (hbound₁ : ∀ q ∈ r₁, q.2 ≤ t) (hbound₂ : ∀ q ∈ r₂, q.2 ≤ t)
    (hmt : m ≤ t)
    (hproj : r₁.filter (fun q => decide (¬ q.1 = b)) =
      r₂.filter (fun q => decide (¬ q.1 = b))) :
    (RateLimiter.is_allowed limit 60
        (RateLimiter.runAll limit 60 (RateLimiter.init t0) r₁) a t).1 =
      (RateLimiter.is_allowed limit 60
        (RateLimiter.runAll limit 60 (RateLimiter.init t0) r₂) a t).1 ∧
    RateLimiter.get_remaining limit
        (RateLimiter.runAll limit 60 (RateLimiter.init t0) r₁) a t =
      RateLimiter.get_remaining limit
        (RateLimiter.runAll limit 60 (RateLimiter.init t0) r₂) a t := by
  have hprojA : r₁.filter (fun q => decide (q.1 = a)) =
      r₂.filter (fun q => decide (q.1 = a)) := by
    rw [RateLimiter.filter_eq_a_through_ne_b r₁ a b hab,
      RateLimiter.filter_eq_a_through_ne_b r₂ a b hab, hproj]
  have hinit : RateLimiter.agreeAbove
      ((RateLimiter.init t0).requests a) ((RateLimiter.init t0).requests a)
      (m - 60) := fun c _ => rfl
  have h₁ := RateLimiter.runAll_project limit 60 a r₁ (RateLimiter.init t0)
    (RateLimiter.init t0) m hinit hchain₁ t hmt hbound₁
  have h₂ := RateLimiter.runAll_project limit 60 a r₂ (RateLimiter.init t0)
    (RateLimiter.init t0) m hinit hchain₂ t hmt hbound₂
  rw [hprojA] at h₁
  have hagree : ∀ c : ℚ, t - 60 ≤ c →
      ((RateLimiter.runAll limit 60 (RateLimiter.init t0) r₁).requests a).filter
          (fun x => decide (c < x)) =
        ((RateLimiter.runAll limit 60 (RateLimiter.init t0) r₂).requests a).filter
          (fun x => decide (c < x)) :=
    fun c hc => (h₁ c hc).trans (h₂ c hc).symm
  have hkey := hagree (t - 60) le_rfl
  constructor
  · rw [RateLimiter.is_allowed_fst_eq, RateLimiter.is_allowed_fst_eq, hkey]
  · unfold RateLimiter.get_remaining
    rw [hkey]

/-- C10 witness: with the projections away from client "b" equal (run 1 has
one call by "b", run 2 none), client "a" gets the same verdict and remaining
budget in both runs. -/
theorem rate_limiter_noninterference_witness :
    (RateLimiter.is_allowed 1 60
        (RateLimiter.runAll 1 60 (RateLimiter.init 0) [("b", 0)]) "a" 0).1 =
      (RateLimiter.is_allowed 1 60
        (RateLimiter.runAll 1 60 (RateLimiter.init 0) []) "a" 0).1 ∧
    RateLimiter.get_remaining 1
        (RateLimiter.runAll 1 60 (RateLimiter.init 0) [("b", 0)]) "a" 0 =
      RateLimiter.get_remaining 1
        (RateLimiter.runAll 1 60 (RateLimiter.init 0) []) "a" 0 :=
  rate_limiter_noninterference 1 "a" "b" 0 0 0 [("b", 0)] [] (by decide)
    (by simp)
    (by simp)
    (by
      intro q hq
      rcases List.mem_singleton.mp hq with rfl
      norm_num)
    (by simp)
    le_rfl
    (by simp)

end XAnalytics
